import Mathlib

/-!
Verification development for the TimeTracker event-to-interval pipeline
(src/timetracker/parse_timetracker_file.py).

The Python functions are shallowly embedded as executable Lean definitions:

* datetimes are modelled as total minute counts (Nat); Python datetime
  comparison and subtraction agree with the Nat order and Int subtraction
  on this encoding;
* Python dicts used as records with a fixed key set (the parsed line dicts)
  become structures; the timespan entry dicts, whose key set is what some
  claims are about, become association lists in insertion order;
* the label-to-timeline mapping (a defaultdict with insertion order) becomes
  an insertion-ordered association list;
* Python exceptions (ValueError from strptime, KeyError, IndexError,
  NameError) become the error side of Except String, carrying a message
  modelled on the Python one (quotes omitted from messages);
* the implicit datetime.now() call in the interval builder becomes an
  explicit now parameter;
* character classes and str.lower/str.title are modelled on their ASCII
  behaviour (all concrete inputs used below are ASCII).
-/

/-! ### Character classes (ASCII model of the Python regex classes) -/

def isSpaceC (c : Char) : Bool :=
  c = ' ' || c = '\t' || c = '\n' || c = '\r' || c = '\x0b' || c = '\x0c'

def isWordC (c : Char) : Bool :=
  c.isAlphanum || c = '_'

/-- Character class of the first datetime chunk in the line regex. -/
def isDtC (c : Char) : Bool :=
  c.isDigit || c = '.' || c = '-'

/-- Character class of the second datetime chunk in the line regex. -/
def isDt2C (c : Char) : Bool :=
  c.isDigit || c = '.' || c = ':'

/-- Character class of the label group: anything except the tag and comment
markers. -/
def isLabelC (c : Char) : Bool :=
  !(c = '#' || c = ',')

/-! ### ASCII case mapping (model of str.lower and str.title on ASCII data) -/

def asciiUpper : Char → Char
  | 'a' => 'A' | 'b' => 'B' | 'c' => 'C' | 'd' => 'D' | 'e' => 'E' | 'f' => 'F'
  | 'g' => 'G' | 'h' => 'H' | 'i' => 'I' | 'j' => 'J' | 'k' => 'K' | 'l' => 'L'
  | 'm' => 'M' | 'n' => 'N' | 'o' => 'O' | 'p' => 'P' | 'q' => 'Q' | 'r' => 'R'
  | 's' => 'S' | 't' => 'T' | 'u' => 'U' | 'v' => 'V' | 'w' => 'W' | 'x' => 'X'
  | 'y' => 'Y' | 'z' => 'Z' | c => c

def asciiLower : Char → Char
  | 'A' => 'a' | 'B' => 'b' | 'C' => 'c' | 'D' => 'd' | 'E' => 'e' | 'F' => 'f'
  | 'G' => 'g' | 'H' => 'h' | 'I' => 'i' | 'J' => 'j' | 'K' => 'k' | 'L' => 'l'
  | 'M' => 'm' | 'N' => 'n' | 'O' => 'o' | 'P' => 'p' | 'Q' => 'q' | 'R' => 'r'
  | 'S' => 's' | 'T' => 't' | 'U' => 'u' | 'V' => 'v' | 'W' => 'w' | 'X' => 'x'
  | 'Y' => 'y' | 'Z' => 'z' | c => c

/-- Model of Python str.lower on ASCII data. -/
def pyLower (s : String) : String :=
  String.mk (s.data.map asciiLower)

/-- One step of str.title: a cased character is uppercased when the previous
character was not cased, lowercased otherwise. The Bool argument records
whether the previous character was cased (alphabetic in the ASCII model). -/
def pyTitleGo : Bool → List Char → List Char
  | _, [] => []
  | prev, c :: cs =>
    (if c.isAlpha then (if prev then asciiLower c else asciiUpper c) else c)
      :: pyTitleGo c.isAlpha cs

/-- Model of Python str.title on ASCII data. -/
def pyTitle (s : String) : String :=
  String.mk (pyTitleGo false s.data)

/-- Model of Python str.strip: remove leading and trailing whitespace. -/
def pyStrip (s : String) : String :=
  String.mk (((s.data.dropWhile isSpaceC).reverse.dropWhile isSpaceC).reverse)

/-! ### The line regex

The source compiles (line 76-78)

  (?P<datetime>[\d\.-]+[:\s][\d\.:]+)\s+(?P<action>\w+)\s+(?P<label>[^#,]+)
  (?P<tags>(\s*#\w+)*)(,\s+(?P<comment>.+))?$

anchored at the start (re.match). Each quantified chunk below is matched by
maximal munch; this is equivalent to the backtracking semantics for this
particular pattern because every pair of adjacent chunks has disjoint
character classes, the label class excludes the tag and comment markers, and
giving characters back from a greedy chunk can therefore never turn an
overall failure into a success (nor change the captured groups of an overall
success). -/

/-- Split off a maximal non-empty run of characters satisfying p; fail when
the run is empty (models a regex plus on a character class). -/
def take1Plus (p : Char → Bool) (cs : List Char) : Option (List Char × List Char) :=
  match cs.takeWhile p, cs.dropWhile p with
  | [], _ => none
  | t, r => some (t, r)

/-- Groups captured by the line regex: the raw datetime text, the action
word, the label text, the tags text (empty when no tags) and the optional
comment. -/
structure Groups where
  dtStr : String
  action : String
  label : String
  tags : String
  comment : Option String
deriving DecidableEq

/-- Match the starred tag chunk: as many repetitions of whitespace-hash-word
as possible, returning the matched text and the remainder. A repetition that
has no word character after its hash marker fails and is given back whole.
Every successful repetition consumes at least its hash character, so fuel
equal to the input length (as supplied by tagsGo) always suffices and the
fuel recursion is exact. -/
def tagsGoF : Nat → List Char → List Char × List Char
  | 0, cs => ([], cs)
  | fuel + 1, cs =>
    match cs.dropWhile isSpaceC with
    | '#' :: r2 =>
      match r2.takeWhile isWordC with
      | [] => ([], cs)
      | w =>
        let res := tagsGoF fuel (r2.dropWhile isWordC)
        ((cs.takeWhile isSpaceC) ++ '#' :: w ++ res.1, res.2)
    | _ => ([], cs)

def tagsGo (cs : List Char) : List Char × List Char :=
  tagsGoF cs.length cs

/-- Match the optional comment chunk (comma, whitespace, free text) followed
by end of input, given the remainder after the tags chunk; returns the
comment group when the overall match succeeds. -/
def commentChunk : List Char → Option (Option String)
  | [] => some none
  | ',' :: r9 =>
    match take1Plus isSpaceC r9 with
    | none => none
    | some (_, r10) => if r10.isEmpty then none else some (some (String.mk r10))
  | _ => none

/-- Model of line_pat.match on a (stripped) line: either the captured groups
or a failed match. -/
def lineMatch (s : String) : Option Groups :=
  match take1Plus isDtC s.data with
  | none => none
  | some (d1, r1) =>
    match r1 with
    | [] => none
    | sep :: r2 =>
      if sep = ':' || isSpaceC sep then
        match take1Plus isDt2C r2 with
        | none => none
        | some (d2, r3) =>
          match take1Plus isSpaceC r3 with
          | none => none
          | some (_, r4) =>
            match take1Plus isWordC r4 with
            | none => none
            | some (act, r5) =>
              match take1Plus isSpaceC r5 with
              | none => none
              | some (_, r6) =>
                match take1Plus isLabelC r6 with
                | none => none
                | some (lab, r7) =>
                  match tagsGo r7 with
                  | (tg, r8) =>
                    match commentChunk r8 with
                    | none => none
                    | some cm =>
                      some ⟨String.mk (d1 ++ sep :: d2), String.mk act,
                            String.mk lab, String.mk tg, cm⟩
      else none

/-! ### strptime with the fixed format of the source (datestrptime, line 79)

The format is parsed exactly as CPython strptime compiles it: the year is
four digits, month, day, hour and minute follow the alternation patterns of
the standard TimeRE table, literal separators match exactly (a literal
whitespace in the format matches a whitespace run), the whole string must be
consumed, and the resulting calendar date must be valid (year at least 1,
day within the month). The result is a total minute count. -/

def digitVal (c : Char) : Nat := c.toNat - 48

/-- The %Y pattern: exactly four digits. -/
def parseYear : List Char → Option (Nat × List Char)
  | a :: b :: c :: d :: rest =>
    if a.isDigit && b.isDigit && c.isDigit && d.isDigit then
      some (digitVal a * 1000 + digitVal b * 100 + digitVal c * 10 + digitVal d, rest)
    else none
  | _ => none

/-- The %m pattern: 1[0-2] or 0[1-9] or [1-9]. -/
def parseMonth : List Char → Option (Nat × List Char)
  | c1 :: c2 :: rest =>
    if c1 = '1' && ('0' ≤ c2 && c2 ≤ '2') then some (10 + digitVal c2, rest)
    else if c1 = '0' && ('1' ≤ c2 && c2 ≤ '9') then some (digitVal c2, rest)
    else if '1' ≤ c1 && c1 ≤ '9' then some (digitVal c1, c2 :: rest)
    else none
  | [c1] => if '1' ≤ c1 && c1 ≤ '9' then some (digitVal c1, []) else none
  | [] => none

/-- The %d pattern: 3[01] or [12]\d or 0[1-9] or [1-9]. -/
def parseDay : List Char → Option (Nat × List Char)
  | c1 :: c2 :: rest =>
    if c1 = '3' && ('0' ≤ c2 && c2 ≤ '1') then some (30 + digitVal c2, rest)
    else if ('1' ≤ c1 && c1 ≤ '2') && c2.isDigit then
      some (digitVal c1 * 10 + digitVal c2, rest)
    else if c1 = '0' && ('1' ≤ c2 && c2 ≤ '9') then some (digitVal c2, rest)
    else if '1' ≤ c1 && c1 ≤ '9' then some (digitVal c1, c2 :: rest)
    else none
  | [c1] => if '1' ≤ c1 && c1 ≤ '9' then some (digitVal c1, []) else none
  | [] => none

/-- The %H pattern: 2[0-3] or [0-1]\d or \d. -/
def parseHour : List Char → Option (Nat × List Char)
  | c1 :: c2 :: rest =>
    if c1 = '2' && ('0' ≤ c2 && c2 ≤ '3') then some (20 + digitVal c2, rest)
    else if ('0' ≤ c1 && c1 ≤ '1') && c2.isDigit then
      some (digitVal c1 * 10 + digitVal c2, rest)
    else if c1.isDigit then some (digitVal c1, c2 :: rest)
    else none
  | [c1] => if c1.isDigit then some (digitVal c1, []) else none
  | [] => none

/-- The %M pattern: [0-5]\d or \d. -/
def parseMinute : List Char → Option (Nat × List Char)
  | c1 :: c2 :: rest =>
    if ('0' ≤ c1 && c1 ≤ '5') && c2.isDigit then
      some (digitVal c1 * 10 + digitVal c2, rest)
    else if c1.isDigit then some (digitVal c1, c2 :: rest)
    else none
  | [c1] => if c1.isDigit then some (digitVal c1, []) else none
  | [] => none

/-- Literal character in the strptime format. -/
def parseLit (c : Char) : List Char → Option (List Char)
  | d :: rest => if d = c then some rest else none
  | [] => none

def isLeapYear (y : Nat) : Bool :=
  (y % 4 = 0 && y % 100 ≠ 0) || y % 400 = 0

def daysInMonth (y m : Nat) : Nat :=
  if m = 2 then (if isLeapYear y then 29 else 28)
  else if m = 4 || m = 6 || m = 9 || m = 11 then 30
  else 31

def daysBeforeMonth (y m : Nat) : Nat :=
  (List.range (m - 1)).foldl (fun acc i => acc + daysInMonth y (i + 1)) 0

/-- Minute count of a calendar datetime (proleptic Gregorian, year 1 based),
matching Python datetime ordering and subtraction. -/
def toMinutes (y mo d h mi : Nat) : Nat :=
  ((365 * (y - 1) + (y - 1) / 4 - (y - 1) / 100 + (y - 1) / 400
      + daysBeforeMonth y mo + (d - 1)) * 24 + h) * 60 + mi

/-- Model of datetime.strptime(s, "%Y-%m-%d %H.%M"): the minute count on
success, none on any ValueError (format mismatch, unconverted trailing data,
or calendar validation failure). -/
def strptimeM (s : String) : Option Nat :=
  match parseYear s.data with
  | none => none
  | some (y, r1) =>
    match parseLit '-' r1 with
    | none => none
    | some r2 =>
      match parseMonth r2 with
      | none => none
      | some (mo, r3) =>
        match parseLit '-' r3 with
        | none => none
        | some r4 =>
          match parseDay r4 with
          | none => none
          | some (d, r5) =>
            match take1Plus isSpaceC r5 with
            | none => none
            | some (_, r6) =>
              match parseHour r6 with
              | none => none
              | some (h, r7) =>
                match parseLit '.' r7 with
                | none => none
                | some r8 =>
                  match parseMinute r8 with
                  | none => none
                  | some (mi, r9) =>
                    if r9.isEmpty && 1 ≤ y && d ≤ daysInMonth y mo then
                      some (toMinutes y mo d h mi)
                    else none

/-! ### parse_files (source lines 82-102) -/

/-- A parsed line dict after normalization: the keys datetime (parsed),
action (lowercased), label (title-cased), tags, comment, filename, lineno. -/
structure Line where
  dt : Nat
  action : String
  label : String
  tags : String
  comment : Option String
  filename : String
  lineno : Nat
deriving DecidableEq

/-- Message of the ValueError raised by strptime on a malformed timestamp;
it names the offending data and the format, nothing else (quotes omitted). -/
def tsErrMsg (ts : String) : String :=
  "ValueError: time data " ++ ts ++ " does not match format %Y-%m-%d %H.%M"

/-- Processing of one raw input line by parse_files: skip on regex mismatch
(a non-fatal diagnostic is logged), raise ValueError when the matched
timestamp text fails strptime, otherwise append the normalized line dict. -/
def parseStep (filename : String) (st : List Line) (p : Nat × String) :
    Except String (List Line) :=
  match lineMatch (pyStrip p.2) with
  | none => .ok st
  | some g =>
    match strptimeM g.dtStr with
    | none => .error (tsErrMsg g.dtStr)
    | some t =>
      .ok (st ++ [⟨t, pyLower g.action, pyTitle g.label, g.tags, g.comment,
                   filename, p.1⟩])

/-- Model of parse_files: every file is a pair of a filename and its lines
(in order, line numbers starting at 0); all files accumulate into one list. -/
def parseFiles (files : List (String × List String)) : Except String (List Line) :=
  files.foldlM (fun st f => f.2.enum.foldlM (parseStep f.1) st) []

/-! ### Event sorting (get_lines_by_label, source lines 110-127)

Python list.sort is a stable sort by the key tuple
(datetime, filename, lineno, label, action); tuples compare
lexicographically, strings by code point. A stable sort with respect to a
total preorder has a unique result, so the stable insertionSort is an exact
model. -/

abbrev KeyT := Nat ×ₗ (String ×ₗ (Nat ×ₗ (String ×ₗ String)))

def sortKey (l : Line) : KeyT :=
  toLex (l.dt, toLex (l.filename, toLex (l.lineno, toLex (l.label, l.action))))

def keyLeP (a b : Line) : Prop := sortKey a ≤ sortKey b

instance : DecidableRel keyLeP :=
  fun a b => inferInstanceAs (Decidable (sortKey a ≤ sortKey b))

instance : IsTotal Line keyLeP := ⟨fun a b => le_total (sortKey a) (sortKey b)⟩

instance : IsTrans Line keyLeP := ⟨fun _ _ _ => le_trans⟩

/-- Model of lines.sort(key=sort_key). -/
def pySortLines (lines : List Line) : List Line :=
  lines.insertionSort keyLeP

/-! ### The label grouper (get_lines_by_label, source lines 105-151) -/

/-- A timeline entry: the line dict after the grouper popped lineno and
filename, or a synthetic stop dict. The Python synthetic stop dict carries
only action, label and datetime; tags = none marks it (the Python
distinction between an absent key and a key holding None is collapsed, no
grouped entry is ever compared on it). -/
structure TLine where
  dt : Nat
  action : String
  label : String
  tags : Option String
  comment : Option String
deriving DecidableEq

/-- Popping lineno and filename from an incoming line dict (source lines
146-147). -/
def dropMeta (l : Line) : TLine :=
  ⟨l.dt, l.action, l.label, some l.tags, l.comment⟩

/-- The synthetic stop dict appended by auto-stop (source line 143). -/
def synStop (dt : Nat) (label : String) : TLine :=
  ⟨dt, "stop", label, none, none⟩

/-- The grouper state: the insertion-ordered label-to-timeline mapping
(a Python defaultdict of lists). -/
abbrev GState := List (String × List TLine)

/-- Reading d[label] on a defaultdict creates an empty timeline at the end
when the key is absent. -/
def touch : GState → String → GState
  | [], lab => [(lab, [])]
  | p :: s, lab => if p.1 = lab then p :: s else p :: touch s lab

def assocGet : GState → String → Option (List TLine)
  | [], _ => none
  | p :: s, lab => if p.1 = lab then some p.2 else assocGet s lab

/-- Appending to d[label] (creates the key at the end when absent). -/
def appendEntry : GState → String → TLine → GState
  | [], lab, v => [(lab, [v])]
  | p :: s, lab, v =>
    if p.1 = lab then (p.1, p.2 ++ [v]) :: s else p :: appendEntry s lab v

/-- The action of the last entry of a timeline. -/
def lastAction (tl : List TLine) : Option String :=
  tl.getLast?.map (·.action)

/-- The auto-stop loop body (source lines 140-145): append a synthetic stop,
timestamped with the incoming datetime, to every timeline whose last entry
is a start. Iterating the mapping looks at the last element of every
timeline, so an empty timeline raises IndexError; that is checked separately
in groupGo. -/
def closeOpen (dt : Nat) (s : GState) : GState :=
  s.map (fun p =>
    if lastAction p.2 = some "start" then (p.1, p.2 ++ [synStop dt p.1]) else p)

def hasEmptyTl (s : GState) : Bool :=
  s.any (fun p => p.2.isEmpty)

/-- The part of the grouper loop body after the redundant-stop check: run the
auto-stop loop when enabled and the incoming action is start, then append
the incoming entry to its own label. -/
def groupGo (auto : Bool) (s : GState) (l : Line) : Except String GState :=
  if auto = true ∧ l.action = "start" then
    if hasEmptyTl s then .error "IndexError: list index out of range"
    else .ok (appendEntry (closeOpen l.dt s) l.label (dropMeta l))
  else .ok (appendEntry s l.label (dropMeta l))

/-- One iteration of the grouper loop (source lines 129-149). The
redundant-stop check (lines 132-137) tests the label field, not the action,
against the string stop, and its last-entry comparison compares a dict with
a string, which is always false in Python; evaluating d[label] on the
defaultdict creates an empty timeline when absent. -/
def groupStep (auto discart : Bool) (s : GState) (l : Line) : Except String GState :=
  if discart = true ∧ l.label = "stop" then
    let s1 := touch s l.label
    if (assocGet s1 l.label).getD [] = [] then .ok s1
    else groupGo auto s1 l
  else groupGo auto s l

/-- Model of get_lines_by_label(lines, auto_stop_on_start,
discart_redundant_stops): sort, then a single forward pass. -/
def getLinesByLabel (lines : List Line) (auto discart : Bool) :
    Except String GState :=
  (pySortLines lines).foldlM (groupStep auto discart) []

/-! ### The interval builder (find_timespans_by_label, source lines 154-182) -/

/-- A value stored in a timespan entry dict. -/
inductive EVal where
  | s (v : String)
  | t (v : Nat)
  | d (v : Int)
deriving DecidableEq

/-- A timespan entry dict, as an association list in key insertion order. -/
abbrev Entry := List (String × EVal)

def lookupE (e : Entry) (k : String) : Option EVal :=
  (e.find? (fun p => p.1 = k)).map (·.2)

def entryKeys (e : Entry) : List String :=
  e.map (·.1)

/-- The entry dict built for one start line (source lines 166-180): keys
label, start, stop and timespan, in that insertion order. -/
def mkEntry (label : String) (a b : Nat) : Entry :=
  [("label", .s label), ("start", .t a), ("stop", .t b),
   ("timespan", .d ((b : Int) - (a : Int)))]

/-- The nearest stop entry after position i (source line 168). -/
def firstStopAfter (tl : List TLine) (i : Nat) : Option TLine :=
  (tl.drop (i + 1)).find? (fun l => l.action = "stop")

/-- The nearest start entry after position i (source line 175). -/
def firstStartAfter (tl : List TLine) (i : Nat) : Option TLine :=
  (tl.drop (i + 1)).find? (fun l => l.action = "start")

/-- One iteration of the inner loop of find_timespans_by_label, at position
i of the timeline. The state carries the entries built so far for this label
and the current binding of the Python local next_stop, which survives across
iterations and across labels: when the nearest-stop search raises
StopIteration the assignment fails, so the overlap check (source line 176)
reads the previous binding, and raises NameError when there is none and a
next start exists (the stop time is set to now in that branch before the
check). -/
def ftStep (label : String) (tl : List TLine) (now : Nat)
    (st : List Entry × Option TLine) (i : Nat) :
    Except String (List Entry × Option TLine) :=
  match tl.get? i with
  | none => .ok st
  | some line =>
    if line.action = "start" then
      match firstStopAfter tl i with
      | some ns => .ok (st.1 ++ [mkEntry label line.dt ns.dt], some ns)
      | none =>
        match firstStartAfter tl i with
        | some _ =>
          match st.2 with
          | none => .error "NameError: name next_stop is not defined"
          | some _ => .ok (st.1 ++ [mkEntry label line.dt now], st.2)
        | none => .ok (st.1 ++ [mkEntry label line.dt now], st.2)
    else .ok st

/-- The inner loop over one label's timeline, threading the next_stop
binding. -/
def ftLabelRun (label : String) (tl : List TLine) (now : Nat)
    (last0 : Option TLine) : Except String (List Entry × Option TLine) :=
  (List.range tl.length).foldlM (ftStep label tl now) ([], last0)

/-- The mapping produced by find_timespans_by_label is a defaultdict whose
keys are created on first append, so a label appears in it exactly when at
least one entry was built for it. -/
abbrev Mapping := List (String × List Entry)

/-- Model of find_timespans_by_label; now models the implicit datetime.now()
call at source line 173. -/
def findTimespansByLabel (m : GState) (now : Nat) : Except String Mapping :=
  (m.foldlM
    (fun (acc : Mapping × Option TLine) (p : String × List TLine) => do
      let r ← ftLabelRun p.1 p.2 now acc.2
      Except.ok (acc.1 ++ (if r.1.isEmpty then [] else [(p.1, r.1)]), r.2))
    (([], none) : Mapping × Option TLine)).map
    (fun (a : Mapping × Option TLine) => a.1)

/-! ### The filter stage (source lines 184-241) -/

/-- The filter configuration entries read by the filter stage (the args
dict). -/
structure FilterArgs where
  labels : Option (List String)
  exclude_labels : Option (List String)
  start_before : Option Nat
  start_after : Option Nat
  end_before : Option Nat
  end_after : Option Nat
  discart_empty_labels : Bool
deriving DecidableEq

/-- The time_ok predicate of filter_timespans: look the criterion key up in
the entry dict (KeyError when absent) and compare (TypeError when the value
is not a datetime). -/
def timeOk (key : String) (isAfter : Bool) (bound : Nat) (e : Entry) :
    Except String Bool :=
  match lookupE e key with
  | some (.t v) => .ok (if isAfter then bound ≤ v else v ≤ bound)
  | some _ => .error "TypeError: comparison not supported"
  | none => .error ("KeyError: " ++ key)

/-- One criterion pass of filter_timespans: rebuild the whole mapping,
keeping every label and filtering its entry list. -/
def filterOne (m : Mapping) (key : String) (isAfter : Bool) (bound : Nat) :
    Except String Mapping :=
  m.mapM (fun p => do
    let es ← p.2.filterM (fun e => timeOk key isAfter bound e)
    pure (p.1, es))

/-- Model of filter_timespans (source lines 184-206): when no time criterion
is set the mapping is returned untouched; otherwise the criteria are applied
in the tuple order start_before, start_after, end_before, end_after, with
the criterion key taken from the text before the underscore (start or end). -/
def filterTimespans (m : Mapping) (a : FilterArgs) : Except String Mapping :=
  if a.start_before = none ∧ a.start_after = none ∧ a.end_before = none ∧
      a.end_after = none then
    .ok m
  else do
    let m1 ← match a.start_before with
      | some b => filterOne m "start" false b
      | none => .ok m
    let m2 ← match a.start_after with
      | some b => filterOne m1 "start" true b
      | none => .ok m1
    let m3 ← match a.end_before with
      | some b => filterOne m2 "end" false b
      | none => .ok m2
    match a.end_after with
      | some b => filterOne m3 "end" true b
      | none => .ok m3

/-- Truthiness of args.get on a list-valued entry: false for an absent key
and for an empty list. -/
def truthyList : Option (List String) → Bool
  | some (_ :: _) => true
  | _ => false

/-- Model of filter_labels (source lines 208-225). The function mutates both
of its arguments: it pops mapping keys in place and overwrites the labels
and exclude_labels entries of the args dict with title-cased copies; the
model returns the final state of both. -/
def filterLabels (m : Mapping) (a : FilterArgs) : Mapping × FilterArgs :=
  let step1 : Mapping × FilterArgs :=
    if truthyList a.labels then
      let nl := (a.labels.getD []).map pyTitle
      (m.filter (fun p => nl.contains p.1), { a with labels := some nl })
    else (m, a)
  if truthyList step1.2.exclude_labels then
    let nx := (step1.2.exclude_labels.getD []).map pyTitle
    (step1.1.filter (fun p => !(nx.contains p.1)),
     { step1.2 with exclude_labels := some nx })
  else step1

/-- Model of filter_empty (source lines 227-233). -/
def filterEmpty (m : Mapping) : Mapping :=
  m.filter (fun p => !p.2.isEmpty)

/-- Model of filter_main (source lines 235-241). -/
def filterMain (m : Mapping) (a : FilterArgs) : Except String Mapping := do
  let s1 := filterLabels m a
  let m2 ← filterTimespans s1.1 s1.2
  pure (if s1.2.discart_empty_labels then filterEmpty m2 else m2)

/-! ### Shared lemmas -/

theorem asciiUpper_ne_s (c : Char) : asciiUpper c ≠ 's' := by
  unfold asciiUpper
  split <;> simp_all <;> decide

/-- Title-casing can never produce the all-lowercase string that the
redundant-stop test of the grouper compares labels against. -/
theorem pyTitle_ne_stop (s : String) : pyTitle s ≠ "stop" := by
  intro h
  have hd : pyTitleGo false s.data = ['s', 't', 'o', 'p'] := congrArg String.data h
  cases hcs : s.data with
  | nil => rw [hcs] at hd; simp [pyTitleGo] at hd
  | cons c cs =>
    rw [hcs] at hd
    simp only [pyTitleGo] at hd
    have hhead :
        (if c.isAlpha then (if false then asciiLower c else asciiUpper c) else c) = 's' :=
      (List.cons.injEq _ _ _ _ ▸ hd).1
    by_cases hA : c.isAlpha
    · simp only [hA, if_true, if_false] at hhead
      exact asciiUpper_ne_s c hhead
    · simp only [hA, if_false] at hhead
      subst hhead
      simp at hA

theorem keyLeP_dt {a b : Line} (h : keyLeP a b) : a.dt ≤ b.dt :=
  Prod.Lex.monotone_fst _ _ h

theorem pySortLines_sorted (lines : List Line) :
    List.Sorted keyLeP (pySortLines lines) :=
  List.sorted_insertionSort keyLeP lines

theorem mem_pySortLines {l : Line} {lines : List Line} :
    l ∈ pySortLines lines ↔ l ∈ lines := by
  simp [pySortLines, List.mem_insertionSort]

theorem except_bind_ok {α β : Type} (a : α) (f : α → Except String β) :
    (Except.ok a >>= f) = f a := rfl

theorem except_bind_error {α β : Type} (e : String) (f : α → Except String β) :
    ((Except.error e : Except String α) >>= f) = Except.error e := rfl

/-- Generic preservation of a predicate along a foldlM in the Except monad. -/
theorem foldlM_except_inv {α β : Type} (f : β → α → Except String β) (P : β → Prop)
    (hf : ∀ b a b2, f b a = .ok b2 → P b → P b2) :
    ∀ (l : List α) (b b2 : β), l.foldlM f b = .ok b2 → P b → P b2 := by
  intro l
  induction l with
  | nil => intro b b2 h hb; cases h; exact hb
  | cons a l ih =>
    intro b b2 h hb
    cases h1 : f b a with
    | error e => rw [List.foldlM_cons, h1] at h; cases h
    | ok b1 =>
      rw [List.foldlM_cons, h1] at h
      exact ih b1 b2 h (hf b a b1 h1 hb)

/-! ### Grouper state lemmas -/

theorem assocGet_of_nodup {s : GState} {p : String × List TLine}
    (hnd : (s.map Prod.fst).Nodup) (hm : p ∈ s) :
    assocGet s p.1 = some p.2 := by
  induction s with
  | nil => cases hm
  | cons q t ih =>
    rcases List.mem_cons.mp hm with rfl | hm'
    · simp [assocGet]
    · have hq : q.1 ≠ p.1 := by
        intro he
        have : p.1 ∈ t.map Prod.fst := List.mem_map_of_mem Prod.fst hm'
        rw [← he] at this
        exact (List.nodup_cons.mp hnd).1 this
      simp only [assocGet, if_neg hq]
      exact ih (List.nodup_cons.mp hnd).2 hm'

theorem assocGet_appendEntry_self (s : GState) (lab : String) (v : TLine) :
    assocGet (appendEntry s lab v) lab = some ((assocGet s lab).getD [] ++ [v]) := by
  induction s with
  | nil => simp [appendEntry, assocGet]
  | cons p t ih =>
    by_cases h : p.1 = lab
    · simp [appendEntry, assocGet, h]
    · simp [appendEntry, assocGet, h, ih]

theorem assocGet_appendEntry_ne {k lab : String} (h : k ≠ lab) (s : GState) (v : TLine) :
    assocGet (appendEntry s lab v) k = assocGet s k := by
  have hlk : lab ≠ k := Ne.symm h
  induction s with
  | nil => simp [appendEntry, assocGet, hlk]
  | cons p t ih =>
    by_cases hp : p.1 = lab
    · simp [appendEntry, assocGet, hp, hlk]
    · simp [appendEntry, assocGet, hp, ih]

theorem closeOpen_cons (dt : Nat) (p : String × List TLine) (t : GState) :
    closeOpen dt (p :: t) =
      (if lastAction p.2 = some "start" then (p.1, p.2 ++ [synStop dt p.1]) else p)
        :: closeOpen dt t := by
  by_cases ho : lastAction p.2 = some "start" <;> simp [closeOpen, ho]

theorem assocGet_closeOpen (dt : Nat) (s : GState) (k : String) :
    assocGet (closeOpen dt s) k =
      (assocGet s k).map
        (fun tl => if lastAction tl = some "start" then tl ++ [synStop dt k] else tl) := by
  induction s with
  | nil => simp [closeOpen, assocGet]
  | cons p t ih =>
    rw [closeOpen_cons]
    by_cases hk : p.1 = k
    · subst hk
      by_cases ho : lastAction p.2 = some "start" <;> simp [assocGet, ho]
    · by_cases ho : lastAction p.2 = some "start" <;> simp [assocGet, hk, ho, ih]

theorem keys_closeOpen (dt : Nat) (s : GState) :
    (closeOpen dt s).map Prod.fst = s.map Prod.fst := by
  induction s with
  | nil => rfl
  | cons p t ih =>
    rw [closeOpen_cons]
    by_cases ho : lastAction p.2 = some "start" <;> simp [ho, ih]

theorem hasEmptyTl_eq_false {s : GState} (h : ∀ p ∈ s, p.2 ≠ ([] : List TLine)) :
    hasEmptyTl s = false := by
  simp only [hasEmptyTl, List.any_eq_false]
  intro p hp
  simpa [List.isEmpty_iff] using h p hp

/-! ### Open-activity counting (for the single-open-activity invariant) -/

/-- Whether a timeline is currently open (its last appended entry is a
start), counted as 0 or 1. -/
def openBit (tl : List TLine) : Nat :=
  if lastAction tl = some "start" then 1 else 0

/-- The number of labels whose timeline is currently open. -/
def openCount (s : GState) : Nat :=
  (s.map (fun p => openBit p.2)).sum

theorem openBit_le_one (tl : List TLine) : openBit tl ≤ 1 := by
  unfold openBit
  split <;> simp

theorem lastAction_concat (tl : List TLine) (v : TLine) :
    lastAction (tl ++ [v]) = some v.action := by
  simp [lastAction, List.getLast?_concat]

theorem openBit_concat_nonstart {v : TLine} (h : v.action ≠ "start")
    (tl : List TLine) : openBit (tl ++ [v]) = 0 := by
  simp [openBit, lastAction_concat, h]

theorem openCount_touch (s : GState) (lab : String) :
    openCount (touch s lab) = openCount s := by
  induction s with
  | nil => simp [touch, openCount, openBit, lastAction]
  | cons p t ih =>
    by_cases hp : p.1 = lab
    · simp [touch, hp]
    · simp only [touch, if_neg hp, openCount, List.map_cons, List.sum_cons] at ih ⊢
      omega

theorem openCount_closeOpen (dt : Nat) (s : GState) :
    openCount (closeOpen dt s) = 0 := by
  induction s with
  | nil => rfl
  | cons p t ih =>
    rw [closeOpen_cons]
    by_cases ho : lastAction p.2 = some "start"
    · have hb : openBit (p.2 ++ [synStop dt p.1]) = 0 :=
        openBit_concat_nonstart (by simp [synStop]) p.2
      simp [openCount, ho, hb] at ih ⊢
      exact ih
    · have hb : openBit p.2 = 0 := by simp [openBit, ho]
      simp [openCount, ho, hb] at ih ⊢
      exact ih

theorem openCount_appendEntry_le (s : GState) (lab : String) (v : TLine) :
    openCount (appendEntry s lab v) ≤ openCount s + 1 := by
  induction s with
  | nil =>
    simp only [appendEntry, openCount, List.map_cons, List.map_nil, List.sum_cons,
      List.sum_nil]
    have := openBit_le_one [v]
    omega
  | cons p t ih =>
    by_cases hp : p.1 = lab
    · simp only [appendEntry, if_pos hp, openCount, List.map_cons, List.sum_cons]
      have h1 := openBit_le_one (p.2 ++ [v])
      omega
    · simp only [appendEntry, if_neg hp, openCount, List.map_cons, List.sum_cons] at ih ⊢
      omega

theorem openCount_appendEntry_nonstart {v : TLine} (h : v.action ≠ "start")
    (s : GState) (lab : String) :
    openCount (appendEntry s lab v) ≤ openCount s := by
  induction s with
  | nil =>
    simp [appendEntry, openCount, openBit, lastAction, h]
  | cons p t ih =>
    by_cases hp : p.1 = lab
    · simp only [appendEntry, if_pos hp, openCount, List.map_cons, List.sum_cons]
      have h1 : openBit (p.2 ++ [v]) = 0 := openBit_concat_nonstart h p.2
      omega
    · simp only [appendEntry, if_neg hp, openCount, List.map_cons, List.sum_cons] at ih ⊢
      omega

/-- One grouper step with auto-stop enabled preserves the at-most-one-open
invariant. -/
theorem groupStep_openCount {discart : Bool} {s s2 : GState} {l : Line}
    (hok : groupStep true discart s l = .ok s2) (hinv : openCount s ≤ 1) :
    openCount s2 ≤ 1 := by
  have hgo : ∀ s1 : GState, openCount s1 ≤ 1 → groupGo true s1 l = .ok s2 →
      openCount s2 ≤ 1 := by
    intro s1 h1 hok1
    unfold groupGo at hok1
    by_cases ha : l.action = "start"
    · rw [if_pos ⟨rfl, ha⟩] at hok1
      by_cases he : hasEmptyTl s1
      · rw [if_pos he] at hok1; cases hok1
      · rw [if_neg he] at hok1
        cases hok1
        calc openCount (appendEntry (closeOpen l.dt s1) l.label (dropMeta l))
            ≤ openCount (closeOpen l.dt s1) + 1 := openCount_appendEntry_le _ _ _
          _ = 1 := by rw [openCount_closeOpen]
    · rw [if_neg (fun hc => ha hc.2)] at hok1
      cases hok1
      calc openCount (appendEntry s1 l.label (dropMeta l))
          ≤ openCount s1 := openCount_appendEntry_nonstart (by simpa [dropMeta]) s1 _
        _ ≤ 1 := h1
  unfold groupStep at hok
  by_cases hd : discart = true ∧ l.label = "stop"
  · rw [if_pos hd] at hok
    by_cases hdrop : (assocGet (touch s l.label) l.label).getD [] = ([] : List TLine)
    · rw [if_pos hdrop] at hok
      cases hok
      rw [openCount_touch]
      exact hinv
    · rw [if_neg hdrop] at hok
      exact hgo (touch s l.label) (by rw [openCount_touch]; exact hinv) hok
  · rw [if_neg hd] at hok
    exact hgo s hinv hok

/-! ### Timeline monotonicity (for non-negative durations) -/

/-- Datetime order on timeline entries. -/
def dtLe (a b : TLine) : Prop := a.dt ≤ b.dt

instance : IsTrans TLine dtLe := ⟨fun _ _ _ hab hbc => le_trans hab hbc⟩

theorem chain_concat {tl : List TLine} {v : TLine} (hch : tl.Chain' dtLe)
    (hb : ∀ e ∈ tl, e.dt ≤ v.dt) : (tl ++ [v]).Chain' dtLe := by
  rw [List.chain'_append]
  refine ⟨hch, List.chain'_singleton v, ?_⟩
  intro x hx y hy
  have hx' : x ∈ tl := List.mem_of_mem_getLast? hx
  have hy' : v = y := by simpa using hy
  rw [← hy']
  exact hb x hx'

theorem mem_touch {p : String × List TLine} {s : GState} {lab : String}
    (h : p ∈ touch s lab) : p ∈ s ∨ p = (lab, ([] : List TLine)) := by
  induction s with
  | nil => simpa [touch] using h
  | cons q t ih =>
    by_cases hq : q.1 = lab
    · rw [touch, if_pos hq] at h
      exact Or.inl h
    · rw [touch, if_neg hq] at h
      rcases List.mem_cons.mp h with rfl | h'
      · exact Or.inl (List.mem_cons_self _ _)
      · rcases ih h' with h2 | h2
        · exact Or.inl (List.mem_cons_of_mem _ h2)
        · exact Or.inr h2

theorem mem_appendEntry {p : String × List TLine} {s : GState} {lab : String}
    {v : TLine} (h : p ∈ appendEntry s lab v) :
    p ∈ s ∨ (∃ q ∈ s, p = (q.1, q.2 ++ [v])) ∨ p = (lab, [v]) := by
  induction s with
  | nil => simpa [appendEntry] using h
  | cons q t ih =>
    by_cases hq : q.1 = lab
    · rw [appendEntry, if_pos hq] at h
      rcases List.mem_cons.mp h with rfl | h'
      · exact Or.inr (Or.inl ⟨q, List.mem_cons_self _ _, rfl⟩)
      · exact Or.inl (List.mem_cons_of_mem _ h')
    · rw [appendEntry, if_neg hq] at h
      rcases List.mem_cons.mp h with rfl | h'
      · exact Or.inl (List.mem_cons_self _ _)
      · rcases ih h' with h2 | h2 | h2
        · exact Or.inl (List.mem_cons_of_mem _ h2)
        · rcases h2 with ⟨r, hr, he⟩
          exact Or.inr (Or.inl ⟨r, List.mem_cons_of_mem _ hr, he⟩)
        · exact Or.inr (Or.inr h2)

/-- The chain-and-bound invariant of the grouper state: every timeline is in
nondecreasing datetime order and every entry timestamp is at most every
still-pending input timestamp. -/
def gInv (pend : List Line) (s : GState) : Prop :=
  ∀ p ∈ s, p.2.Chain' dtLe ∧ ∀ e ∈ p.2, ∀ x ∈ pend, e.dt ≤ x.dt

theorem gInv_touch {pend : List Line} {s : GState} {lab : String}
    (h : gInv pend s) : gInv pend (touch s lab) := by
  intro p hp
  rcases mem_touch hp with hp' | rfl
  · exact h p hp'
  · exact ⟨List.chain'_nil, by simp⟩

theorem groupGo_gInv {auto : Bool} {s s2 : GState} {l : Line} {pend : List Line}
    (hok : groupGo auto s l = .ok s2)
    (hl : ∀ x ∈ pend, l.dt ≤ x.dt)
    (hinv : gInv (l :: pend) s) : gInv pend s2 := by
  have hbnd : ∀ p ∈ s, ∀ e ∈ p.2, e.dt ≤ l.dt :=
    fun p hp e he => (hinv p hp).2 e he l (List.mem_cons_self _ _)
  have hfut : ∀ p ∈ s, ∀ e ∈ p.2, ∀ x ∈ pend, e.dt ≤ x.dt :=
    fun p hp e he x hx => (hinv p hp).2 e he x (List.mem_cons_of_mem _ hx)
  have hco : gInv pend (closeOpen l.dt s) := by
    intro p hp
    rcases List.mem_map.mp hp with ⟨q, hq, he⟩
    by_cases ho : lastAction q.2 = some "start"
    · rw [if_pos ho] at he
      subst he
      refine ⟨chain_concat (hinv q hq).1 (fun e hee => hbnd q hq e hee), ?_⟩
      intro e hee x hx
      rcases List.mem_append.mp hee with h1 | h1
      · exact hfut q hq e h1 x hx
      · have : e = synStop l.dt q.1 := by simpa using h1
        rw [this]
        exact hl x hx
    · rw [if_neg ho] at he
      subst he
      exact ⟨(hinv q hq).1, fun e hee x hx => hfut q hq e hee x hx⟩
  have happ : ∀ (sb : GState), gInv pend sb →
      (∀ p ∈ sb, ∀ e ∈ p.2, e.dt ≤ l.dt) →
      gInv pend (appendEntry sb l.label (dropMeta l)) := by
    intro sb hb hbd p hp
    rcases mem_appendEntry hp with hp' | ⟨q, hq, he⟩ | he
    · exact hb p hp'
    · subst he
      refine ⟨chain_concat (hb q hq).1 (fun e hee => hbd q hq e hee), ?_⟩
      intro e hee x hx
      rcases List.mem_append.mp hee with h1 | h1
      · exact (hb q hq).2 e h1 x hx
      · have : e = dropMeta l := by simpa using h1
        rw [this]
        exact hl x hx
    · subst he
      refine ⟨List.chain'_singleton _, ?_⟩
      intro e hee x hx
      have : e = dropMeta l := by simpa using hee
      rw [this]
      exact hl x hx
  unfold groupGo at hok
  by_cases ha : auto = true ∧ l.action = "start"
  · rw [if_pos ha] at hok
    by_cases he : hasEmptyTl s
    · rw [if_pos he] at hok; cases hok
    · rw [if_neg he] at hok
      cases hok
      refine happ (closeOpen l.dt s) hco ?_
      intro p hp e hee
      rcases List.mem_map.mp hp with ⟨q, hq, hee2⟩
      by_cases ho : lastAction q.2 = some "start"
      · rw [if_pos ho] at hee2
        subst hee2
        rcases List.mem_append.mp hee with h1 | h1
        · exact hbnd q hq e h1
        · have : e = synStop l.dt q.1 := by simpa using h1
          rw [this]
          exact le_refl l.dt
      · rw [if_neg ho] at hee2
        subst hee2
        exact hbnd q hq e hee
  · rw [if_neg ha] at hok
    cases hok
    exact happ s (fun p hp => ⟨(hinv p hp).1, hfut p hp⟩) hbnd

theorem groupStep_gInv {auto discart : Bool} {s s2 : GState} {l : Line}
    {pend : List Line} (hok : groupStep auto discart s l = .ok s2)
    (hl : ∀ x ∈ pend, l.dt ≤ x.dt)
    (hinv : gInv (l :: pend) s) : gInv pend s2 := by
  have hinv_t : gInv (l :: pend) (touch s l.label) := gInv_touch hinv
  unfold groupStep at hok
  by_cases hd : discart = true ∧ l.label = "stop"
  · rw [if_pos hd] at hok
    by_cases hdrop : (assocGet (touch s l.label) l.label).getD [] = ([] : List TLine)
    · rw [if_pos hdrop] at hok
      cases hok
      intro p hp
      exact ⟨(hinv_t p hp).1,
        fun e he x hx => (hinv_t p hp).2 e he x (List.mem_cons_of_mem _ hx)⟩
    · rw [if_neg hdrop] at hok
      exact groupGo_gInv hok hl hinv_t
  · rw [if_neg hd] at hok
    exact groupGo_gInv hok hl hinv

/-- Along any fold of the grouper over a datetime-sorted line list, every
timeline in the resulting state is in nondecreasing datetime order. -/
theorem gfold_chain :
    ∀ (pend : List Line) (auto discart : Bool) (s0 s : GState),
      pend.Pairwise (fun a b => a.dt ≤ b.dt) → gInv pend s0 →
      pend.foldlM (groupStep auto discart) s0 = .ok s →
      ∀ p ∈ s, p.2.Chain' dtLe := by
  intro pend
  induction pend with
  | nil =>
    intro auto discart s0 s _ hinv h
    cases h
    exact fun p hp => (hinv p hp).1
  | cons l pend ih =>
    intro auto discart s0 s hpw hinv h
    have hl : ∀ x ∈ pend, l.dt ≤ x.dt := (List.pairwise_cons.mp hpw).1
    cases h1 : groupStep auto discart s0 l with
    | error e => rw [List.foldlM_cons, h1] at h; cases h
    | ok s1 =>
      rw [List.foldlM_cons, h1] at h
      exact ih auto discart s1 s (List.pairwise_cons.mp hpw).2
        (groupStep_gInv h1 hl hinv) h

/-- On a datetime-sorted timeline, the nearest stop found after position i is
no earlier than the entry at position i. -/
theorem chain_firstStopAfter {tl : List TLine} (hch : tl.Chain' dtLe)
    {i : Nat} (hi : i < tl.length) {ns : TLine}
    (hfind : firstStopAfter tl i = some ns) :
    (tl.get ⟨i, hi⟩).dt ≤ ns.dt := by
  have hpw : tl.Pairwise dtLe := List.chain'_iff_pairwise.mp hch
  have hns : ns ∈ tl.drop (i + 1) := List.mem_of_find?_eq_some hfind
  have hx : tl.get ⟨i, hi⟩ ∈ tl.take (i + 1) := by
    have h1 : (tl.take (i + 1))[i]? = tl[i]? := List.getElem?_take_of_succ
    have h2 : tl[i]? = some (tl.get ⟨i, hi⟩) := by
      simp [List.getElem?_eq_getElem hi]
    exact List.getElem?_mem (h1.trans h2)
  have hpw2 : (tl.take (i + 1) ++ tl.drop (i + 1)).Pairwise dtLe := by
    rw [List.take_append_drop]
    exact hpw
  exact (List.pairwise_append.mp hpw2).2.2 _ hx _ hns

/-! ### Entry key-set invariant of the interval builder -/

/-- The key set every timespan entry dict is built with. -/
def entryKeysOK (e : Entry) : Prop :=
  entryKeys e = ["label", "start", "stop", "timespan"]

theorem entryKeysOK_mkEntry (label : String) (a b : Nat) :
    entryKeysOK (mkEntry label a b) := rfl

theorem entries_snoc {es : List Entry} {v : Entry}
    (h : ∀ e ∈ es, entryKeysOK e) (hv : entryKeysOK v) :
    ∀ e ∈ es ++ [v], entryKeysOK e := by
  intro e he
  rcases List.mem_append.mp he with h1 | h1
  · exact h e h1
  · have : e = v := by simpa using h1
    rw [this]
    exact hv

theorem ftStep_keys {label : String} {tl : List TLine} {now : Nat}
    {st st2 : List Entry × Option TLine} {i : Nat}
    (hok : ftStep label tl now st i = .ok st2)
    (h : ∀ e ∈ st.1, entryKeysOK e) : ∀ e ∈ st2.1, entryKeysOK e := by
  unfold ftStep at hok
  split at hok
  · cases hok; exact h
  · split at hok
    · split at hok
      · cases hok; exact entries_snoc h (entryKeysOK_mkEntry _ _ _)
      · split at hok
        · split at hok
          · cases hok
          · cases hok; exact entries_snoc h (entryKeysOK_mkEntry _ _ _)
        · cases hok; exact entries_snoc h (entryKeysOK_mkEntry _ _ _)
    · cases hok; exact h

theorem ftLabelRun_keys {label : String} {tl : List TLine} {now : Nat}
    {last0 : Option TLine} {r : List Entry × Option TLine}
    (hok : ftLabelRun label tl now last0 = .ok r) :
    ∀ e ∈ r.1, entryKeysOK e := by
  refine foldlM_except_inv (ftStep label tl now)
    (fun st => ∀ e ∈ st.1, entryKeysOK e) ?_ (List.range tl.length)
    ([], last0) r hok ?_
  · intro b a b2 hstep hb
    exact ftStep_keys hstep hb
  · intro e he
    cases he

theorem findTimespans_keys {m : GState} {now : Nat} {res : Mapping}
    (hok : findTimespansByLabel m now = .ok res) :
    ∀ pr ∈ res, ∀ e ∈ pr.2, entryKeysOK e := by
  unfold findTimespansByLabel at hok
  cases hfold : m.foldlM
      (fun (acc : Mapping × Option TLine) (p : String × List TLine) => do
        let r ← ftLabelRun p.1 p.2 now acc.2
        Except.ok (acc.1 ++ (if r.1.isEmpty then [] else [(p.1, r.1)]), r.2))
      (([], none) : Mapping × Option TLine) with
  | error e => rw [hfold] at hok; cases hok
  | ok acc =>
    rw [hfold] at hok
    cases hok
    refine foldlM_except_inv _
      (fun acc2 : Mapping × Option TLine => ∀ pr ∈ acc2.1, ∀ e ∈ pr.2, entryKeysOK e)
      ?_ m ([], none) acc hfold ?_
    · intro b a b2 hstep hb
      cases hr : ftLabelRun a.1 a.2 now b.2 with
      | error e =>
        rw [hr, except_bind_error] at hstep
        cases hstep
      | ok r =>
        rw [hr, except_bind_ok] at hstep
        cases hstep
        intro pr hpr
        rcases List.mem_append.mp hpr with h1 | h1
        · exact hb pr h1
        · by_cases hre : r.1.isEmpty
          · rw [if_pos hre] at h1; cases h1
          · rw [if_neg hre] at h1
            have : pr = (a.1, r.1) := by simpa using h1
            rw [this]
            exact ftLabelRun_keys hr
    · intro pr hpr
      cases hpr

/-! ### Labels produced by parse_files are title-cased -/

def labelsTitled (ls : List Line) : Prop :=
  ∀ l ∈ ls, ∃ s0, l.label = pyTitle s0

theorem parseStep_labels {fname : String} {st st2 : List Line} {p : Nat × String}
    (hok : parseStep fname st p = .ok st2) (h : labelsTitled st) :
    labelsTitled st2 := by
  unfold parseStep at hok
  split at hok
  · cases hok; exact h
  · rename_i g hm
    split at hok
    · cases hok
    · rename_i t ht
      cases hok
      intro l hl
      rcases List.mem_append.mp hl with h1 | h1
      · exact h l h1
      · have : l = ⟨t, pyLower g.action, pyTitle g.label, g.tags, g.comment,
            fname, p.1⟩ := by simpa using h1
        exact ⟨g.label, by rw [this]⟩

theorem parseFiles_labels {files : List (String × List String)} {lines : List Line}
    (hok : parseFiles files = .ok lines) : labelsTitled lines := by
  refine foldlM_except_inv _ labelsTitled ?_ files [] lines hok ?_
  · intro b a b2 hstep hb
    exact foldlM_except_inv (parseStep a.1) labelsTitled
      (fun c q c2 hq hc => parseStep_labels hq hc) a.2.enum b b2 hstep hb
  · intro l hl
    cases hl

/-! ### The redundant-stop branch is unreachable for title-cased labels -/

theorem groupStep_discart {auto : Bool} {s : GState} {l : Line}
    (h : l.label ≠ "stop") (discart : Bool) :
    groupStep auto discart s l = groupGo auto s l := by
  unfold groupStep
  rw [if_neg (fun hc => h hc.2)]

theorem gfold_discart_eq :
    ∀ (p : List Line) (auto : Bool) (s0 : GState),
      (∀ l ∈ p, l.label ≠ "stop") →
      p.foldlM (groupStep auto true) s0 = p.foldlM (groupStep auto false) s0 := by
  intro p
  induction p with
  | nil => intros; rfl
  | cons l p ih =>
    intro auto s0 h
    rw [List.foldlM_cons, List.foldlM_cons,
      groupStep_discart (h l (List.mem_cons_self _ _)) true,
      groupStep_discart (h l (List.mem_cons_self _ _)) false]
    cases hgo : groupGo auto s0 l with
    | error e => rw [except_bind_error, except_bind_error]
    | ok s1 =>
      have hmem : ∀ x ∈ p, x.label ≠ "stop" :=
        fun x hx => h x (List.mem_cons_of_mem _ hx)
      rw [except_bind_ok, except_bind_ok]
      exact ih auto s1 hmem

/-! ## The claims -/

/-- C1 counterexample: with auto_stop_on_start enabled, processing a second
Start for label A whose own timeline already ends in a Start appends a
synthetic Stop (tagless, timestamped with the incoming Start) to the
incoming label's own timeline, contradicting the claim that synthetic stops
go only to other labels. -/
theorem c1_counterexample :
    getLinesByLabel
        [⟨0, "start", "A", "", none, "f", 0⟩, ⟨5, "start", "A", "", none, "f", 1⟩]
        true false =
      .ok [("A", [⟨0, "start", "A", some "", none⟩, synStop 5 "A",
                  ⟨5, "start", "A", some "", none⟩])] ∧
    synStop 5 "A" = ⟨5, "stop", "A", none, none⟩ :=
  ⟨rfl, rfl⟩

/-- C1 (amended): in the grouper with auto_stop_on_start enabled, when a
Start event is processed, a synthetic Stop event timestamped identically to
the incoming Start is appended to the timeline of every label whose last
appended event is a Start, including the incoming Start's own label, after
which the incoming Start is appended to its own label's timeline. -/
theorem c1_auto_stop_closes_every_open_label (discart : Bool) (s s2 : GState)
    (l : Line) (p : String × List TLine)
    (hact : l.action = "start")
    (hlab : ¬(discart = true ∧ l.label = "stop"))
    (hne : ∀ q ∈ s, q.2 ≠ ([] : List TLine))
    (hnd : (s.map Prod.fst).Nodup)
    (hok : groupStep true discart s l = .ok s2)
    (hp : p ∈ s) (hopen : lastAction p.2 = some "start") :
    assocGet s2 p.1 =
      some (p.2 ++ [synStop l.dt p.1] ++
        (if p.1 = l.label then [dropMeta l] else [])) := by
  have hgo : groupGo true s l = .ok s2 := by
    rw [groupStep, if_neg hlab] at hok
    exact hok
  have hneb : ¬(hasEmptyTl s = true) := by
    simp [hasEmptyTl_eq_false hne]
  rw [groupGo, if_pos ⟨rfl, hact⟩, if_neg hneb] at hgo
  cases hgo
  have hclose : assocGet (closeOpen l.dt s) p.1 = some (p.2 ++ [synStop l.dt p.1]) := by
    rw [assocGet_closeOpen, assocGet_of_nodup hnd hp]
    simp [hopen]
  by_cases hpl : p.1 = l.label
  · rw [if_pos hpl, ← hpl, assocGet_appendEntry_self, hclose]
    simp [List.append_assoc]
  · rw [if_neg hpl, assocGet_appendEntry_ne hpl, hclose]
    simp

/-- C1 witness: the amended statement evaluated at a second Start for an
already open label. -/
theorem c1_witness :
    assocGet [("A", [⟨0, "start", "A", some "", none⟩, synStop 5 "A",
                     ⟨5, "start", "A", some "", none⟩])] "A" =
      some ([⟨0, "start", "A", some "", none⟩] ++ [synStop 5 "A"] ++
        (if "A" = "A" then [dropMeta ⟨5, "start", "A", "", none, "f", 1⟩] else [])) :=
  c1_auto_stop_closes_every_open_label false
    [("A", [⟨0, "start", "A", some "", none⟩])]
    [("A", [⟨0, "start", "A", some "", none⟩, synStop 5 "A",
            ⟨5, "start", "A", some "", none⟩])]
    ⟨5, "start", "A", "", none, "f", 1⟩
    ("A", [⟨0, "start", "A", some "", none⟩])
    rfl (by decide) (by decide) (by decide) rfl (by decide) rfl

/-- C2: the redundant-stop check (source line 132) compares the label field,
not the action, against the string stop, and its last-entry test compares a
dict with a string; an incoming Stop for label A with an empty timeline and
discart_redundant_stops enabled is therefore appended, not dropped as the
claim states. -/
theorem c2_redundant_stop_not_dropped :
    getLinesByLabel [⟨7, "stop", "A", "", none, "f", 0⟩] true true =
      .ok [("A", [⟨7, "stop", "A", some "", none⟩])] := rfl

/-- C3: a timeline whose unterminated Start is followed by another Start
makes the interval builder raise NameError (the Python local next_stop is
read by the overlap check before it was ever assigned), instead of producing
an open-ended Timespan and continuing as the claim states; the now argument
models the implicit datetime.now() call. -/
theorem c3_unterminated_start_raises_nameerror :
    findTimespansByLabel
        [("A", [⟨0, "start", "A", some "", none⟩, ⟨5, "start", "A", some "", none⟩])]
        100 =
      .error "NameError: name next_stop is not defined" := rfl

/-- C4: the claimed start_after semantics holds (a Timespan starting at 8:55
is excluded by start_after 9:00, minute counts 535 and 540), but an
end_after bound makes filter_timespans look up the key end, which timespan
entries do not have (their key is stop), so filtering raises KeyError
instead of comparing against the stop time as the claim states. -/
theorem c4_end_bound_raises_keyerror :
    filterTimespans [("A", [mkEntry "A" 0 10])]
        ⟨none, none, none, none, none, some 5, false⟩ =
      .error "KeyError: end" ∧
    filterTimespans [("A", [mkEntry "A" 535 600])]
        ⟨none, none, none, some 540, none, none, false⟩ =
      .ok [("A", [])] :=
  ⟨rfl, rfl⟩

/-- C5 counterexample: for a timeline whose nearest subsequent Start (at 5)
precedes the matched Stop (at 10), the produced record carries no
overlap_warning key at all (the overlap is only logged), and also no
duration or open_ended key, contradicting the claimed record fields. -/
theorem c5_counterexample :
    findTimespansByLabel
        [("A", [⟨0, "start", "A", some "", none⟩, ⟨5, "start", "A", some "", none⟩,
                ⟨10, "stop", "A", some "", none⟩])] 100 =
      .ok [("A", [mkEntry "A" 0 10, mkEntry "A" 5 10])] ∧
    lookupE (mkEntry "A" 0 10) "overlap_warning" = none ∧
    lookupE (mkEntry "A" 0 10) "duration" = none ∧
    lookupE (mkEntry "A" 0 10) "open_ended" = none :=
  ⟨rfl, rfl, rfl, rfl⟩

/-- C5 (amended): every record produced by the interval builder exposes
exactly the fields label, start, stop and timespan, in that order; an
overlap between the matched Stop and a following Start is logged as a
warning but never stored on the record. -/
theorem c5_entry_fields (m : GState) (now : Nat) (res : Mapping)
    (hok : findTimespansByLabel m now = .ok res)
    (lab : String) (es : List Entry) (hmem : (lab, es) ∈ res)
    (e : Entry) (he : e ∈ es) :
    entryKeys e = ["label", "start", "stop", "timespan"] :=
  findTimespans_keys hok (lab, es) hmem e he

/-- C5 witness: the amended statement evaluated on the overlap timeline. -/
theorem c5_witness :
    entryKeys (mkEntry "A" 0 10) = ["label", "start", "stop", "timespan"] :=
  c5_entry_fields
    [("A", [⟨0, "start", "A", some "", none⟩, ⟨5, "start", "A", some "", none⟩,
            ⟨10, "stop", "A", some "", none⟩])] 100
    [("A", [mkEntry "A" 0 10, mkEntry "A" 5 10])] rfl
    "A" [mkEntry "A" 0 10, mkEntry "A" 5 10] (by decide)
    (mkEntry "A" 0 10) (by decide)

/-- C6 counterexample: two files that differ in name and in the line number
of the offending line produce the identical error value, so the error
surfaced for a grammar-matching line with a malformed timestamp does not
identify the offending file and line, contrary to the claim; it names only
the timestamp text and the format. -/
theorem c6_counterexample :
    parseFiles [("f1", ["2020-01-01 09:00 start aa"])] =
      .error (tsErrMsg "2020-01-01 09:00") ∧
    parseFiles [("f2", ["junk", "2020-01-01 09:00 start aa"])] =
      .error (tsErrMsg "2020-01-01 09:00") :=
  ⟨rfl, rfl⟩

/-- C6 (amended): when a line matches the grammar but its timestamp fails to
parse in the fixed format, parsing fails for that file with a ValueError
naming the offending timestamp text and the format (but not the file or
line); a line that does not match the grammar at all is skipped and parsing
continues. -/
theorem c6_bad_timestamp_fatal_nonmatch_skipped (fname ln : String) (i : Nat)
    (acc : List Line) :
    (∀ g : Groups, lineMatch (pyStrip ln) = some g → strptimeM g.dtStr = none →
      parseStep fname acc (i, ln) = .error (tsErrMsg g.dtStr) ∧
      parseFiles [(fname, [ln])] = .error (tsErrMsg g.dtStr)) ∧
    (lineMatch (pyStrip ln) = none → parseStep fname acc (i, ln) = .ok acc) := by
  constructor
  · intro g hm ht
    constructor
    · simp [parseStep, hm, ht]
    · have h0 : parseStep fname [] (0, ln) = .error (tsErrMsg g.dtStr) := by
        simp [parseStep, hm, ht]
      simp [parseFiles, List.enum, h0]
  · intro hm
    simp [parseStep, hm]

/-- C6 witness: the amended statement evaluated at a malformed timestamp
(colon instead of dot) and at a non-matching line. -/
theorem c6_witness :
    (parseStep "f1" [] (0, "2020-01-01 09:00 start aa") =
        .error (tsErrMsg "2020-01-01 09:00") ∧
      parseFiles [("f1", ["2020-01-01 09:00 start aa"])] =
        .error (tsErrMsg "2020-01-01 09:00")) ∧
    parseStep "f1" [] (1, "junk") = .ok [] :=
  ⟨(c6_bad_timestamp_fatal_nonmatch_skipped "f1" "2020-01-01 09:00 start aa" 0 []).1
      ⟨"2020-01-01 09:00", "start", "aa", "", none⟩ rfl rfl,
    (c6_bad_timestamp_fatal_nonmatch_skipped "f1" "junk" 1 []).2 rfl⟩

/-- C7: with auto_stop_on_start enabled, after the grouper's single forward
pass has processed any prefix of the sorted event stream (without raising),
at most one label's timeline ends in a Start event. -/
theorem c7_at_most_one_open (lines : List Line) (discart : Bool)
    (p q : List Line) (s : GState)
    (hsplit : pySortLines lines = p ++ q)
    (hok : p.foldlM (groupStep true discart) ([] : GState) = .ok s) :
    openCount s ≤ 1 :=
  foldlM_except_inv (groupStep true discart) (fun st => openCount st ≤ 1)
    (fun _ _ _ hst hb => groupStep_openCount hst hb) p [] s hok
    (by simp [openCount])

/-- C7 witness: the invariant evaluated after processing a one-event
prefix. -/
theorem c7_witness :
    openCount [("A", [⟨0, "start", "A", some "", none⟩])] ≤ 1 :=
  c7_at_most_one_open [⟨0, "start", "A", "", none, "f", 0⟩] false
    [⟨0, "start", "A", "", none, "f", 0⟩] []
    [("A", [⟨0, "start", "A", some "", none⟩])] rfl rfl

/-- C8: in every timeline produced by the grouper (which sorts its input),
the nearest Stop found after a Start is not earlier than that Start, so the
entry the interval builder constructs for that pair has a non-negative
timespan value. -/
theorem c8_matched_stop_not_earlier (lines : List Line) (auto discart : Bool)
    (m : GState) (hok : getLinesByLabel lines auto discart = .ok m)
    (lab : String) (tl : List TLine) (hmem : (lab, tl) ∈ m)
    (i : Nat) (hi : i < tl.length)
    (hstart : (tl.get ⟨i, hi⟩).action = "start")
    (ns : TLine) (hfind : firstStopAfter tl i = some ns) :
    (tl.get ⟨i, hi⟩).dt ≤ ns.dt ∧
    lookupE (mkEntry lab (tl.get ⟨i, hi⟩).dt ns.dt) "timespan" =
      some (.d ((ns.dt : Int) - ((tl.get ⟨i, hi⟩).dt : Int))) ∧
    0 ≤ ((ns.dt : Int) - ((tl.get ⟨i, hi⟩).dt : Int)) := by
  have hch : tl.Chain' dtLe := by
    refine gfold_chain (pySortLines lines) auto discart [] m ?_ ?_ hok (lab, tl) hmem
    · exact List.Pairwise.imp (fun h => keyLeP_dt h) (pySortLines_sorted lines)
    · intro pr hpr
      cases hpr
  have h1 : (tl.get ⟨i, hi⟩).dt ≤ ns.dt := chain_firstStopAfter hch hi hfind
  exact ⟨h1, rfl, Int.sub_nonneg.mpr (by exact_mod_cast h1)⟩

/-- C8 witness: the non-negativity statement evaluated on a grouped
start-stop pair. -/
theorem c8_witness :
    (3 : Nat) ≤ 9 ∧
    lookupE (mkEntry "A" 3 9) "timespan" =
      some (.d (((9 : Nat) : Int) - ((3 : Nat) : Int))) ∧
    0 ≤ (((9 : Nat) : Int) - ((3 : Nat) : Int)) :=
  c8_matched_stop_not_earlier
    [⟨3, "start", "A", "", none, "f", 0⟩, ⟨9, "stop", "A", "", none, "f", 1⟩]
    true false
    [("A", [⟨3, "start", "A", some "", none⟩, ⟨9, "stop", "A", some "", none⟩])] rfl
    "A" [⟨3, "start", "A", some "", none⟩, ⟨9, "stop", "A", some "", none⟩]
    (by decide) 0 (by decide) rfl ⟨9, "stop", "A", some "", none⟩ rfl

/-- C9 counterexample: the label filtering step rewrites the configuration
it was given (title-casing the labels list), so the step is not free of
effects on the filter configuration as the claim states. -/
theorem c9_counterexample :
    (filterLabels [] ⟨some ["work"], none, none, none, none, none, false⟩).2 ≠
      ⟨some ["work"], none, none, none, none, none, false⟩ := by
  decide

/-- C9 (amended): the label filtering step leaves both the mapping and the
configuration untouched when no label lists are configured; when a list is
present it filters the mapping and rewrites the configuration's label lists
to title case (the other filter steps never write to the configuration). -/
theorem c9_filter_labels_identity_without_lists (m : Mapping) (a : FilterArgs)
    (h1 : a.labels = none) (h2 : a.exclude_labels = none) :
    filterLabels m a = (m, a) := by
  simp [filterLabels, truthyList, h1, h2]

/-- C9 witness: the amended statement evaluated at a configuration with no
label lists. -/
theorem c9_witness :
    filterLabels [("A", [mkEntry "A" 0 10])]
        ⟨none, none, none, some 5, none, none, true⟩ =
      ([("A", [mkEntry "A" 0 10])], ⟨none, none, none, some 5, none, none, true⟩) :=
  c9_filter_labels_identity_without_lists [("A", [mkEntry "A" 0 10])]
    ⟨none, none, none, some 5, none, none, true⟩ rfl rfl

/-- C10: on any event list produced by parse_files (whose labels are all
title-cased, hence never the all-lowercase string the redundant-stop check
compares against), the grouper returns the same mapping with
discart_redundant_stops enabled as with it disabled. -/
theorem c10_discart_flag_no_effect (files : List (String × List String))
    (lines : List Line) (auto : Bool) (hok : parseFiles files = .ok lines) :
    getLinesByLabel lines auto true = getLinesByLabel lines auto false := by
  have htitled := parseFiles_labels hok
  have hns : ∀ l ∈ pySortLines lines, l.label ≠ "stop" := by
    intro l hl
    rcases htitled l (mem_pySortLines.mp hl) with ⟨s0, hs0⟩
    rw [hs0]
    exact pyTitle_ne_stop s0
  unfold getLinesByLabel
  exact gfold_discart_eq (pySortLines lines) auto [] hns

/-- C10 witness: the flag equivalence evaluated on a concrete parsed file. -/
theorem c10_witness :
    getLinesByLabel
        ((parseFiles [("f", ["2020-01-02 09.00 start aa",
                             "2020-01-02 09.30 stop aa"])]).toOption.getD [])
        true true =
      getLinesByLabel
        ((parseFiles [("f", ["2020-01-02 09.00 start aa",
                             "2020-01-02 09.30 stop aa"])]).toOption.getD [])
        true false :=
  c10_discart_flag_no_effect
    [("f", ["2020-01-02 09.00 start aa", "2020-01-02 09.30 stop aa"])]
    ((parseFiles [("f", ["2020-01-02 09.00 start aa",
                         "2020-01-02 09.30 stop aa"])]).toOption.getD [])
    true rfl
